import Mathlib

/- Shallow embedding of the Harbor admin-job API (AJAPI in the core api
   package together with the AdminJobReq model) and of the vulnerability
   scan job executor (the scan package).  Pure Go functions become Lean
   functions; the database of admin-job records becomes an explicit store
   value threaded through the handlers; the external job-runner client is
   modelled by passing its response for the single call a handler makes as
   an argument. -/

/- ===== Schedule and job-kind constants (models/admin_job.go) ===== -/

def ScheduleHourly : String := "Hourly"

def ScheduleDaily : String := "Daily"

def ScheduleWeekly : String := "Weekly"

def ScheduleCustom : String := "Custom"

def ScheduleManual : String := "Manual"

def ScheduleNone : String := "None"

/-- Modelled from the spec: the job-kind constant of the common job package
(periodic = cron-driven recurring); the package itself is outside the
provided sources, which only require the two kinds to be distinct strings. -/
def JobKindPeriodic : String := "Periodic"

/-- Modelled from the spec: the job-kind constant of the common job package
(generic = single execution). -/
def JobKindGeneric : String := "Generic"

/- ===== JSON string encoding, shared by the codecs =====
   Models the treatment of string values by the Go encoding/json library:
   a string value is quoted, with backslash and quote escaped. -/

def escChar (c : Char) : List Char :=
  if c = '\\' ∨ c = '\"' then ['\\', c] else [c]

def escList : List Char → List Char
  | [] => []
  | c :: rest => escChar c ++ escList rest

/-- Modelled from the spec: JSON serialization of one string value as done
by the Go encoding/json library, which is outside the provided sources. -/
def encStr (s : String) : String :=
  String.mk ('\"' :: (escList s.data ++ ['\"']))

/- ===== AdminJobReq model (models/admin_job.go) ===== -/

/-- ScheduleParam of models/admin_job.go: field Type is rendered stype
because Type is reserved in Lean. -/
structure ScheduleParam where
  stype : String
  cron : String
  deriving DecidableEq

/-- AdminJobReq of models/admin_job.go restricted to the fields the
embedded handlers read (name and schedule). -/
structure AdminJobReq where
  name : String
  schedule : ScheduleParam
  deriving DecidableEq

/-- JobKind of models/admin_job.go. -/
def AdminJobReq.jobKind (ar : AdminJobReq) : String :=
  if ar.schedule.stype = ScheduleHourly ∨ ar.schedule.stype = ScheduleDaily ∨
      ar.schedule.stype = ScheduleWeekly ∨ ar.schedule.stype = ScheduleCustom then
    JobKindPeriodic
  else if ar.schedule.stype = ScheduleManual then
    JobKindGeneric
  else
    ""

/-- IsPeriodic of models/admin_job.go. -/
def AdminJobReq.IsPeriodic (ar : AdminJobReq) : Bool :=
  decide (ar.jobKind = JobKindPeriodic)

/-- CronString of models/admin_job.go: the JSON marshalling of the
schedule parameter (fields in declaration order Type, Cron). -/
def AdminJobReq.cronString (ar : AdminJobReq) : String :=
  "\x7b\"type\":" ++ encStr ar.schedule.stype ++ ",\"cron\":" ++ encStr ar.schedule.cron ++ "\x7d"

/- ===== The admin-job record store (common/dao, modelled in memory) ===== -/

/-- AdminJob record of common/models restricted to the fields the embedded
handlers read and write. -/
structure AdminJob where
  id : Nat
  name : String
  kind : String
  cron : String
  uuid : String
  deriving DecidableEq

/-- The record store: the list of persisted admin-job records plus the
next fresh record id the dao will assign. -/
structure Store where
  jobs : List AdminJob
  nextId : Nat
  deriving DecidableEq

def emptyStore : Store := ⟨[], 0⟩

/-- dao.GetAdminJobs with a name-and-kind query. -/
def getAdminJobs (st : Store) (n k : String) : List AdminJob :=
  st.jobs.filter (fun j => j.name == n && j.kind == k)

/-- dao.AddAdminJob: persists a new record with a fresh id and returns the
id; the runner uuid starts empty. -/
def addAdminJob (st : Store) (n k c : String) : Nat × Store :=
  (st.nextId, ⟨st.jobs ++ [⟨st.nextId, n, k, c, ""⟩], st.nextId + 1⟩)

/-- dao.DeleteAdminJob by record id. -/
def deleteAdminJob (st : Store) (i : Nat) : Store :=
  ⟨st.jobs.filter (fun j => j.id != i), st.nextId⟩

/-- dao.SetAdminJobUUID: stores the runner-assigned uuid on the record. -/
def setAdminJobUUID (st : Store) (i : Nat) (u : String) : Store :=
  ⟨st.jobs.map (fun j => if j.id == i then { j with uuid := u } else j), st.nextId⟩

/- ===== Job-runner client responses ===== -/

/-- An error returned by the job-service client: either a structured
common_http.Error carrying an HTTP status code, or any other error. -/
inductive RunnerErr where
  | http (code : Nat) (msg : String)
  | plain (msg : String)
  deriving DecidableEq

def runnerErrMsg : RunnerErr → String
  | .http _ m => m
  | .plain m => m

/-- The outcome an AJAPI handler reports through the base controller. -/
inductive ApiResult where
  | ok
  | preconditionFailed (msg : String)
  | conflict (msg : String)
  | internalError (msg : String)
  deriving DecidableEq

def precondMsg : String :=
  "Fail to set schedule for admin job as always had one, please delete it firstly then to re-schedule."

def multiScheduleMsg : String :=
  "Fail to update admin job schedule as we found more than one schedule in system, please ensure that only one schedule left for your job ."

/- ===== AJAPI.submit ===== -/

/-- AJAPI.submit: for a periodic request first queries for an existing
periodic record of the same name and fails with 412 if one exists;
otherwise persists the record, submits the job to the runner (whose
response for this call is the submitResp argument), deletes the record
again on a failed submission (mapping a 409 runner error to a conflict
response), and stores the runner-assigned uuid on success. -/
def AJAPI.submit (ajr : AdminJobReq) (submitResp : Except RunnerErr String)
    (st : Store) : ApiResult × Store :=
  if ajr.IsPeriodic && ((getAdminJobs st ajr.name JobKindPeriodic).length != 0) then
    (.preconditionFailed precondMsg, st)
  else
    let pr := addAdminJob st ajr.name ajr.jobKind ajr.cronString
    match submitResp with
    | .error e =>
      let st2 := deleteAdminJob pr.2 pr.1
      match e with
      | .http 409 _ =>
        (.conflict ("Conflict when triggering " ++ ajr.name ++ ", please try again later."), st2)
      | _ => (.internalError (runnerErrMsg e), st2)
    | .ok u => (.ok, setAdminJobUUID pr.2 pr.1 u)

/- ===== AJAPI.updateSchedule ===== -/

/-- The stop-error check of AJAPI.updateSchedule: the stop call counts as
succeeded when it returned no error or a common_http.Error with status
404 (already stopped); any other error fails the handler. -/
def stopSucceeded : Option RunnerErr → Bool
  | none => true
  | some (.http 404 _) => true
  | some _ => false

/-- AJAPI.updateSchedule: rejects Manual, requires exactly one existing
periodic record of the name, stops the runner job (stopResp is the
runner's response to that stop call, none meaning success; a 404 http
error is tolerated as already stopped), deletes the record, and, unless
the new schedule type is None, resubmits via AJAPI.submit. -/
def AJAPI.updateSchedule (ajr : AdminJobReq) (stopResp : Option RunnerErr)
    (submitResp : Except RunnerErr String) (st : Store) : ApiResult × Store :=
  if ajr.schedule.stype == ScheduleManual then
    (.internalError ("Fail to update admin job schedule as wrong schedule type: " ++ ajr.schedule.stype ++ "."), st)
  else
    match getAdminJobs st ajr.name JobKindPeriodic with
    | [j] =>
      if stopSucceeded stopResp then
        let st1 := deleteAdminJob st j.id
        if ajr.schedule.stype != ScheduleNone then
          AJAPI.submit ajr submitResp st1
        else
          (.ok, st1)
      else
        (.internalError (runnerErrMsg (stopResp.getD (.plain ""))), st)
    | _ => (.internalError multiScheduleMsg, st)

/- ===== AJAPI.getLog ===== -/

/-- AJAPI.getLog reduced to the HTTP status it answers: 500 when the dao
lookup fails, 404 when no record exists, and otherwise the status of the
runner log retrieval: its HTTP-coded errors are rendered with their own
code, other errors as 500, success as 200. -/
def AJAPI.getLog (getJobRes : Except String (Option AdminJob))
    (logRes : Except RunnerErr String) : Nat :=
  match getJobRes with
  | .error _ => 500
  | .ok none => 404
  | .ok (some _) =>
    match logRes with
    | .error (.http c _) => c
    | .error (.plain _) => 500
    | .ok _ => 200

/- ===== Operation sequences and the uniqueness invariant ===== -/

/-- One externally invoked schedule operation together with the runner
responses observed during it. -/
inductive AdminOp where
  | submit (ajr : AdminJobReq) (resp : Except RunnerErr String)
  | update (ajr : AdminJobReq) (stopResp : Option RunnerErr) (resp : Except RunnerErr String)

def applyOp (st : Store) : AdminOp → Store
  | .submit ajr resp => (AJAPI.submit ajr resp st).2
  | .update ajr s r => (AJAPI.updateSchedule ajr s r st).2

def runOps (ops : List AdminOp) (st : Store) : Store :=
  ops.foldl applyOp st

/-- Number of periodic admin-job records carrying the given name. -/
def periodicCount (st : Store) (n : String) : Nat :=
  (getAdminJobs st n JobKindPeriodic).length

/-- The uniqueness invariant: at most one periodic record per name. -/
def UniqueSched (st : Store) : Prop :=
  ∀ n, periodicCount st n ≤ 1

/- ===== Scan job parameters (pkg/scan/job.go) ===== -/

def JobParamRegistration : String := "registration"

def JobParameterRequest : String := "scanRequest"

def JobParameterMimes : String := "mimeTypes"

/-- checkTimeout of job.go, in seconds (30 minutes). -/
def checkTimeoutSecs : Nat := 1800

/-- firstCheckInterval of job.go, in seconds. -/
def firstCheckIntervalSecs : Nat := 2

/-- A dynamic value stored in the untyped job parameter map
(Go interface values as far as the extractors inspect them). -/
inductive PValue where
  | str (s : String)
  | arr (l : List PValue)
  | int (n : Int)
  | nul

/-- The job parameter map (string keys to dynamic values). -/
abbrev Parameters := List (String × PValue)

def lookupParam (ps : Parameters) (k : String) : Option PValue :=
  (ps.find? (fun p => p.1 == k)).map (fun p => p.2)

/-- Modelled from the spec: the scanner adapter Registration resolved from
its JSON form; the v1 package holding the real struct is outside the
provided sources; only the UUID is read by the embedded code. -/
structure Registration where
  uuid : String
  url : String
  deriving DecidableEq

/-- Modelled from the spec: the artifact part of a scan request. -/
structure Artifact where
  repository : String
  digest : String
  tag : String
  deriving DecidableEq

/-- Modelled from the spec: the registry part of a scan request; the
authorization field is the credential that must never be logged. -/
structure Registry where
  url : String
  authorization : String
  deriving DecidableEq

/-- Modelled from the spec: v1.ScanRequest with its artifact and registry
parts; the v1 package is outside the provided sources. -/
structure ScanRequest where
  artifact : Artifact
  registry : Registry
  deriving DecidableEq

def isErr {α : Type} : Except String α → Bool
  | .error _ => true
  | .ok _ => false

/-- extractRegistration of job.go: the registration parameter must be
present and hold a string, which must deserialize and pass the semantic
validation of the Registration type; parseReg models those two external
steps combined. -/
def extractRegistration (parseReg : String → Except String Registration)
    (ps : Parameters) : Except String Registration :=
  match lookupParam ps JobParamRegistration with
  | none => .error ("missing job parameter registration")
  | some (.str s) => parseReg s
  | some _ => .error ("malformed job parameter registration, expecting string")

/-- ExtractScanReq of job.go: same shape for the scanRequest parameter;
parseReq models FromJSON plus Validate of the external v1.ScanRequest. -/
def ExtractScanReq (parseReq : String → Except String ScanRequest)
    (ps : Parameters) : Except String ScanRequest :=
  match lookupParam ps JobParameterRequest with
  | none => .error ("missing job parameter scanRequest")
  | some (.str s) => parseReq s
  | some _ => .error ("malformed job parameter scanRequest, expecting string")

/-- The element loop of extractMimeTypes: every element of the stored list
must be a string. -/
def collectStrings : List PValue → Except String (List String)
  | [] => .ok []
  | .str s :: rest => (collectStrings rest).map (fun l => s :: l)
  | _ :: _ => .error ("expect string in mime type list")

/-- extractMimeTypes of job.go: the mimeTypes parameter must be present,
hold a list, and every element must be a string. -/
def extractMimeTypes (ps : Parameters) : Except String (List String) :=
  match lookupParam ps JobParameterMimes with
  | none => .error ("missing job parameter mimeTypes")
  | some (.arr l) => collectStrings l
  | some _ => .error ("malformed job parameter mimeTypes, expecting list")

/-- Job.Validate of job.go: a nil parameter map is rejected, then the
three extractors run in sequence and any failure is wrapped and
returned; no effect other than the returned value is produced. -/
def Job.Validate (parseReg : String → Except String Registration)
    (parseReq : String → Except String ScanRequest)
    (params : Option Parameters) : Except String Unit :=
  match params with
  | none => .error ("missing parameter of scan job")
  | some ps =>
    match extractRegistration parseReg ps with
    | .error e => .error ("job validate: " ++ e)
    | .ok _ =>
      match ExtractScanReq parseReq ps with
      | .error e => .error ("job validate: " ++ e)
      | .ok _ =>
        match extractMimeTypes ps with
        | .error e => .error ("job validate: " ++ e)
        | .ok _ => .ok ()

/- ===== Error aggregation of Job.Run (pkg/scan/job.go) ===== -/

/-- One step of the merge loop at the end of Job.Run: a non-nil slot error
is either taken as the aggregate (first failure) or wrapped around the
aggregate so far, whose message errors.Wrap renders first. -/
def wrapStep (acc : Option String) (e : Option String) : Option String :=
  match e with
  | none => acc
  | some m =>
    match acc with
    | none => some m
    | some am => some (am ++ (": ") ++ m)

/-- The merge loop over the per-poller error slots, in slot index order. -/
def mergeErrs (errs : List (Option String)) (init : Option String) : Option String :=
  errs.foldl wrapStep init

/-- The merged message the claim describes: the non-nil poller messages in
index order joined by the wrapping separator, none if there are none. -/
def joinMsgs : List String → Option String
  | [] => none
  | m :: rest => some (rest.foldl (fun a b => a ++ (": ") ++ b) m)

/-- Job.Run of job.go reduced to its error flow: a failed submission to
the scanner returns immediately with the wrapped submission error; after
a successful submission the run joins all pollers (one error slot per
requested mime type, slot list given by pollerSlots) and folds the slots
into the aggregate error, starting from the nil error left by the
successful submission. -/
def Job.Run (submitRes : Except String Unit)
    (pollerSlots : List (Option String)) : Option String :=
  match submitRes with
  | .error e => some ("scan job: submit scan request: " ++ e)
  | .ok _ => mergeErrs pollerSlots none

/- ===== The per-mime-type poller (pkg/scan/job.go) ===== -/

/-- One scanner response observed by a poller tick, together with the
outcome of the two external follow-up steps of the report path
(report.ResolveData schema check and ctx.Checkin). -/
inductive ScanResp where
  | notReady (retryAfter : Nat)
  | err (msg : String)
  | report (raw : String) (resolveOk : Bool) (checkinOk : Bool)
  deriving DecidableEq

/-- Terminal observation of one poller. -/
inductive PollOutcome where
  | success (t : Nat)
  | failed (msg : String) (t : Nat)
  | timedOut (t : Nat)
  | pending
  deriving DecidableEq

/-- The poller loop of Job.Run for one mime type, with time in seconds.
Each iteration opens a select on the report-check timer (current interval
w, reset to the retry-after hint on a not-ready response), and a freshly
created 30-minute timeout channel; whichever fires first wins, a tie
being resolved in favour of the check timer.  rs is the sequence of
scanner responses the poller would observe on its successive checks, t
the absolute time at which the current select started.  The cooperative
cancellation arm is not modelled: the runs described here are runs
without a system shutdown. -/
def pollerRun (rs : List ScanResp) (w t : Nat) : PollOutcome :=
  if checkTimeoutSecs < w then .timedOut (t + checkTimeoutSecs)
  else
    match rs with
    | [] => .pending
    | .notReady r :: rest => pollerRun rest r (t + w)
    | .err _ :: _ => .failed ("check scan report with mime type") (t + w)
    | .report _ resolveOk checkinOk :: _ =>
      if resolveOk then
        if checkinOk then .success (t + w)
        else .failed ("check in scan report for mime type") (t + w)
      else .failed ("scan job: resolve report data") (t + w)

/-- The absolute times at which the poller issues its report checks. -/
def checkTimes (rs : List ScanResp) (w t : Nat) : List Nat :=
  if checkTimeoutSecs < w then []
  else
    match rs with
    | [] => []
    | .notReady r :: rest => (t + w) :: checkTimes rest r (t + w)
    | _ :: _ => [t + w]

/-- Retry-after hints at most the timeout budget, so every wait of the
poller is won by the check timer. -/
def hintOk : ScanResp → Bool
  | .notReady a => decide (a ≤ checkTimeoutSecs)
  | _ => true

/- ===== removeAuthInfo (pkg/scan/job.go) ===== -/

/-- Modelled from the spec: the JSON marshalling of a v1.ScanRequest (the
v1 package is outside the provided sources), rendering the artifact
fields and the registry url and authorization as JSON string values. -/
def ScanRequest.toJSON (sr : ScanRequest) : String :=
  "\x7b\"artifact\":\x7b\"repository\":" ++ encStr sr.artifact.repository ++
    ",\"digest\":" ++ encStr sr.artifact.digest ++
    ",\"tag\":" ++ encStr sr.artifact.tag ++
    "\x7d,\"registry\":\x7b\"url\":" ++ encStr sr.registry.url ++
    ",\"authorization\":" ++ encStr sr.registry.authorization ++ "\x7d\x7d"

/-- removeAuthInfo of job.go: rebuilds the scan request with the same
artifact and registry URL but the fixed placeholder as authorization, and
serializes that copy for logging. -/
def removeAuthInfo (sr : ScanRequest) : String :=
  ScanRequest.toJSON ⟨sr.artifact, ⟨sr.registry.url, "[HIDDEN]"⟩⟩

/- ===== CheckInReport codec (pkg/scan/job.go) ===== -/

/-- CheckInReport of job.go: the four string fields of the check-in
payload, in struct declaration order. -/
structure CheckInReport where
  digest : String
  registrationUUID : String
  mimeType : String
  rawReport : String
  deriving DecidableEq

/- The literal pieces of the JSON object json.Marshal produces for a
CheckInReport, split so that each string value is preceded by its opening
quote and followed by its closing quote. -/

def litA : String := "\x7b\"digest\":\""

def litB : String := ",\"registration_uuid\":\""

def litC : String := ",\"mime_type\":\""

def litD : String := ",\"raw_report\":\""

def litE : String := "\x7d"

/-- Modelled from the spec: the output of the Go encoding/json marshalling
of a CheckInReport (the library is outside the provided sources), as a
character list: the four fields in declaration order with their JSON
keys, string values escaped by escList. -/
def toJSONL (r : CheckInReport) : List Char :=
  litA.data ++ (escList r.digest.data ++ ('\"' :: (litB.data ++ (escList r.registrationUUID.data ++
    ('\"' :: (litC.data ++ (escList r.mimeType.data ++ ('\"' :: (litD.data ++
      (escList r.rawReport.data ++ ('\"' :: litE.data)))))))))))

/-- ToJSON of job.go (delegating to json.Marshal). -/
def CheckInReport.ToJSON (r : CheckInReport) : String :=
  String.mk (toJSONL r)

/-- Consumes an expected literal prefix. -/
def dropLit : List Char → List Char → Option (List Char)
  | [], cs => some cs
  | _ :: _, [] => none
  | l :: ls, c :: cs => if c = l then dropLit ls cs else none

/-- Reads an escaped JSON string body up to its closing quote, undoing the
escaping of escList; returns the decoded characters and the remainder
after the closing quote. -/
def readStr : List Char → Option (List Char × List Char)
  | [] => none
  | c :: rest =>
    if c = '\"' then some ([], rest)
    else if c = '\\' then
      match rest with
      | [] => none
      | c2 :: rest2 => (readStr rest2).map (fun p => (c2 :: p.1, p.2))
    else (readStr rest).map (fun p => (c :: p.1, p.2))

/-- Modelled from the spec: the Go encoding/json unmarshalling of a
CheckInReport, specialised to the object layout json.Marshal emits. -/
def fromJSONL (cs : List Char) : Option CheckInReport :=
  match dropLit litA.data cs with
  | none => none
  | some cs1 =>
    match readStr cs1 with
    | none => none
    | some (d, cs2) =>
      match dropLit litB.data cs2 with
      | none => none
      | some cs3 =>
        match readStr cs3 with
        | none => none
        | some (u, cs4) =>
          match dropLit litC.data cs4 with
          | none => none
          | some cs5 =>
            match readStr cs5 with
            | none => none
            | some (m, cs6) =>
              match dropLit litD.data cs6 with
              | none => none
              | some cs7 =>
                match readStr cs7 with
                | none => none
                | some (w, cs8) =>
                  match dropLit litE.data cs8 with
                  | some [] => some ⟨String.mk d, String.mk u, String.mk m, String.mk w⟩
                  | _ => none

/-- FromJSON of job.go: rejects empty input, then unmarshals. -/
def CheckInReport.FromJSON (s : String) : Option CheckInReport :=
  if s.data = [] then none else fromJSONL s.data

/- ===== Store lemmas ===== -/

theorem getAdminJobs_delete (st : Store) (i : Nat) (n k : String) :
    getAdminJobs (deleteAdminJob st i) n k = (getAdminJobs st n k).filter (fun j => j.id != i) := by
  simp only [getAdminJobs, deleteAdminJob]
  induction st.jobs with
  | nil => rfl
  | cons x xs ih =>
    by_cases h1 : x.id != i <;> by_cases h2 : (x.name == n && x.kind == k) <;>
      simp [List.filter_cons, h1, h2, ih]

theorem periodicCount_delete_le (st : Store) (i : Nat) (n : String) :
    periodicCount (deleteAdminJob st i) n ≤ periodicCount st n := by
  simp only [periodicCount, getAdminJobs_delete]
  exact List.length_filter_le _ _

theorem getAdminJobs_setUUID (st : Store) (i : Nat) (u : String) (n k : String) :
    getAdminJobs (setAdminJobUUID st i u) n k =
      (getAdminJobs st n k).map (fun j => if j.id == i then { j with uuid := u } else j) := by
  simp only [getAdminJobs, setAdminJobUUID]
  induction st.jobs with
  | nil => rfl
  | cons x xs ih =>
    by_cases h0 : x.id = i <;> by_cases h2 : (x.name == n && x.kind == k) <;>
      simp [List.filter_cons, h0, h2] <;> simpa using ih

theorem periodicCount_setUUID (st : Store) (i : Nat) (u : String) (n : String) :
    periodicCount (setAdminJobUUID st i u) n = periodicCount st n := by
  simp [periodicCount, getAdminJobs_setUUID]

theorem getAdminJobs_add (st : Store) (nm kd c : String) (n k : String) :
    getAdminJobs (addAdminJob st nm kd c).2 n k =
      getAdminJobs st n k ++ (if nm == n && kd == k then [⟨st.nextId, nm, kd, c, ""⟩] else []) := by
  simp only [getAdminJobs, addAdminJob, List.filter_append]
  by_cases h : (nm == n && kd == k) <;> simp [List.filter_cons, h]

theorem periodicCount_add (st : Store) (nm kd c : String) (n : String) :
    periodicCount (addAdminJob st nm kd c).2 n =
      periodicCount st n + (if nm == n && kd == JobKindPeriodic then 1 else 0) := by
  simp only [periodicCount, getAdminJobs_add]
  by_cases h : (nm == n && kd == JobKindPeriodic) <;> simp [h]

theorem jobKind_of_not_periodic (ajr : AdminJobReq) (h : ajr.IsPeriodic = false) :
    ajr.jobKind ≠ JobKindPeriodic := by
  simpa [AdminJobReq.IsPeriodic] using h

/-- The store AJAPI.submit leaves behind, by guard and runner response. -/
theorem submit_state (ajr : AdminJobReq) (resp : Except RunnerErr String) (st : Store) :
    (AJAPI.submit ajr resp st).2 =
      if ajr.IsPeriodic && ((getAdminJobs st ajr.name JobKindPeriodic).length != 0) then st
      else
        match resp with
        | .error _ =>
          deleteAdminJob (addAdminJob st ajr.name ajr.jobKind ajr.cronString).2
            (addAdminJob st ajr.name ajr.jobKind ajr.cronString).1
        | .ok u =>
          setAdminJobUUID (addAdminJob st ajr.name ajr.jobKind ajr.cronString).2
            (addAdminJob st ajr.name ajr.jobKind ajr.cronString).1 u := by
  unfold AJAPI.submit
  split
  · rfl
  · cases resp with
    | ok u => rfl
    | error e =>
      split
      · split <;> rfl
      · rename_i u heq
        exact Except.noConfusion heq

theorem unique_after_add (ajr : AdminJobReq) (st : Store) (h : UniqueSched st)
    (hg : ¬(ajr.IsPeriodic && ((getAdminJobs st ajr.name JobKindPeriodic).length != 0)) = true) :
    UniqueSched (addAdminJob st ajr.name ajr.jobKind ajr.cronString).2 := by
  intro n
  rw [periodicCount_add]
  simp only [Bool.and_eq_true, not_and_or, Bool.not_eq_true] at hg
  rcases hg with hp | hlen
  · have hk : ajr.jobKind ≠ JobKindPeriodic := jobKind_of_not_periodic ajr hp
    rw [if_neg (by simp [hk])]
    simpa using h n
  · by_cases hn : (ajr.name == n && ajr.jobKind == JobKindPeriodic) = true
    · have hn2 := hn
      simp only [Bool.and_eq_true, beq_iff_eq] at hn2
      have hname : ajr.name = n := hn2.1
      have hzero : periodicCount st n = 0 := by
        have hz : (getAdminJobs st ajr.name JobKindPeriodic).length = 0 := by
          simpa using hlen
        simpa [periodicCount, hname] using hz
      simp [hn, hzero]
    · rw [if_neg hn]
      simpa using h n

theorem submit_preserves_unique (ajr : AdminJobReq) (resp : Except RunnerErr String)
    (st : Store) (h : UniqueSched st) : UniqueSched (AJAPI.submit ajr resp st).2 := by
  rw [submit_state]
  by_cases hg : (ajr.IsPeriodic && ((getAdminJobs st ajr.name JobKindPeriodic).length != 0)) = true
  · simpa [hg] using h
  · have hadd := unique_after_add ajr st h hg
    rw [if_neg hg]
    cases resp with
    | error e =>
      intro n
      exact le_trans (periodicCount_delete_le _ _ _) (hadd n)
    | ok u =>
      intro n
      rw [periodicCount_setUUID]
      exact hadd n

theorem delete_preserves_unique (st : Store) (i : Nat) (h : UniqueSched st) :
    UniqueSched (deleteAdminJob st i) := by
  intro n
  exact le_trans (periodicCount_delete_le _ _ _) (h n)

theorem updateSchedule_preserves_unique (ajr : AdminJobReq) (stopResp : Option RunnerErr)
    (resp : Except RunnerErr String) (st : Store) (h : UniqueSched st) :
    UniqueSched (AJAPI.updateSchedule ajr stopResp resp st).2 := by
  unfold AJAPI.updateSchedule
  split
  · exact h
  · split
    · split
      · split
        · exact submit_preserves_unique _ _ _ (delete_preserves_unique _ _ h)
        · exact delete_preserves_unique _ _ h
      · exact h
    · exact h

theorem runOps_preserves_unique (ops : List AdminOp) (st : Store) (h : UniqueSched st) :
    UniqueSched (runOps ops st) := by
  induction ops generalizing st with
  | nil => exact h
  | cons op rest ih =>
    cases op with
    | submit ajr resp =>
      exact ih _ (submit_preserves_unique ajr resp st h)
    | update ajr s r =>
      exact ih _ (updateSchedule_preserves_unique ajr s r st h)

/-- C1: for every sequence of Submit and UpdateSchedule operations run
from the empty store, at most one periodic AdminJob record exists per
name at every observable instant (every prefix of the sequence ends in a
store satisfying the uniqueness invariant); and a periodic Submit issued
while a periodic record of the same name exists fails with the
PreconditionFailed error and leaves the store unchanged. -/
theorem submit_unique_periodic (ops : List AdminOp) (ajr : AdminJobReq)
    (resp : Except RunnerErr String) (st : Store)
    (hp : ajr.IsPeriodic = true) (hex : 0 < periodicCount st ajr.name) :
    UniqueSched (runOps ops emptyStore) ∧
      AJAPI.submit ajr resp st = (.preconditionFailed precondMsg, st) := by
  constructor
  · refine runOps_preserves_unique ops emptyStore ?_
    intro n
    simp [periodicCount, getAdminJobs, emptyStore]
  · unfold AJAPI.submit
    rw [if_pos]
    rw [hp]
    simp only [Bool.true_and, bne_iff_ne, ne_eq]
    have hex2 : 0 < (getAdminJobs st ajr.name JobKindPeriodic).length := hex
    omega

def sampleReq : AdminJobReq := ⟨"scan-all", ⟨"Daily", "0 0 2 * * *"⟩⟩

def sampleJob : AdminJob := ⟨0, "scan-all", "Periodic", "", "uuid-0"⟩

def sampleStore : Store := ⟨[sampleJob], 1⟩

theorem submit_unique_periodic_witness :
    UniqueSched (runOps [] emptyStore) ∧
      AJAPI.submit sampleReq (.ok ("uuid-1")) sampleStore =
        (.preconditionFailed precondMsg, sampleStore) :=
  submit_unique_periodic [] sampleReq (.ok ("uuid-1")) sampleStore (by decide) (by decide)

/-- The four cron-driven schedule types of models/admin_job.go. -/
def isCronSched (s : String) : Bool :=
  s == ScheduleHourly || s == ScheduleDaily || s == ScheduleWeekly || s == ScheduleCustom

theorem jobKind_of_cron (ajr : AdminJobReq) (h : isCronSched ajr.schedule.stype = true) :
    ajr.jobKind = JobKindPeriodic := by
  simp only [isCronSched, Bool.or_eq_true, beq_iff_eq, or_assoc] at h
  unfold AdminJobReq.jobKind
  rw [if_pos h]

theorem cron_ne_manual_none (s : String) (h : isCronSched s = true) :
    s ≠ ScheduleManual ∧ s ≠ ScheduleNone := by
  simp only [isCronSched, Bool.or_eq_true, beq_iff_eq, or_assoc] at h
  rcases h with h | h | h | h <;> subst h <;> exact ⟨by decide, by decide⟩

theorem mem_of_getAdminJobs (st : Store) (n k : String) (j : AdminJob)
    (hq : getAdminJobs st n k = [j]) : j ∈ st.jobs := by
  have hj : j ∈ getAdminJobs st n k := by
    rw [hq]
    exact List.mem_singleton_self j
  exact (List.mem_filter.mp hj).1

/-- C4: given exactly one periodic record for a name and a stop call that
succeeds (or is tolerated as a 404), UpdateSchedule with type None stops
and deletes the record and creates nothing, leaving zero periodic records
for the name; UpdateSchedule with a cron schedule type leaves exactly one
periodic record for the name, the newly created record with the fresh
store id and the runner-assigned uuid of the resubmission, and the old
record is gone from the store. -/
theorem updateSchedule_replacement (ajr : AdminJobReq) (stopResp : Option RunnerErr)
    (resp : Except RunnerErr String) (u : String) (j : AdminJob) (st : Store)
    (hq : getAdminJobs st ajr.name JobKindPeriodic = [j])
    (hstop : stopSucceeded stopResp = true)
    (hwf : ∀ x ∈ st.jobs, x.id < st.nextId) :
    (ajr.schedule.stype = ScheduleNone →
      AJAPI.updateSchedule ajr stopResp resp st = (.ok, deleteAdminJob st j.id) ∧
        periodicCount (AJAPI.updateSchedule ajr stopResp resp st).2 ajr.name = 0) ∧
    (isCronSched ajr.schedule.stype = true →
      getAdminJobs (AJAPI.updateSchedule ajr stopResp (.ok u) st).2 ajr.name JobKindPeriodic =
          [⟨st.nextId, ajr.name, JobKindPeriodic, ajr.cronString, u⟩] ∧
        j ∉ (AJAPI.updateSchedule ajr stopResp (.ok u) st).2.jobs) := by
  have hjmem : j ∈ st.jobs := mem_of_getAdminJobs st ajr.name JobKindPeriodic j hq
  have hdelq : getAdminJobs (deleteAdminJob st j.id) ajr.name JobKindPeriodic = [] := by
    rw [getAdminJobs_delete, hq]
    simp
  constructor
  · intro hNone
    have hres : AJAPI.updateSchedule ajr stopResp resp st = (.ok, deleteAdminJob st j.id) := by
      unfold AJAPI.updateSchedule
      rw [if_neg (by simp [hNone, ScheduleNone, ScheduleManual])]
      rw [hq]
      simp [hstop, hNone]
    refine ⟨hres, ?_⟩
    rw [hres]
    show (getAdminJobs (deleteAdminJob st j.id) ajr.name JobKindPeriodic).length = 0
    rw [hdelq]
    rfl
  · intro hCron
    have hmn := cron_ne_manual_none ajr.schedule.stype hCron
    have hjk := jobKind_of_cron ajr hCron
    have hres : AJAPI.updateSchedule ajr stopResp (.ok u) st =
        AJAPI.submit ajr (.ok u) (deleteAdminJob st j.id) := by
      unfold AJAPI.updateSchedule
      rw [if_neg (by simp [hmn.1])]
      rw [hq]
      simp [hstop, bne_iff_ne, hmn.2]
    have hsub : AJAPI.submit ajr (.ok u) (deleteAdminJob st j.id) =
        (.ok, setAdminJobUUID (addAdminJob (deleteAdminJob st j.id) ajr.name ajr.jobKind ajr.cronString).2
          (addAdminJob (deleteAdminJob st j.id) ajr.name ajr.jobKind ajr.cronString).1 u) := by
      unfold AJAPI.submit
      rw [if_neg (by simp [hdelq])]
    rw [hres, hsub]
    constructor
    · rw [getAdminJobs_setUUID, getAdminJobs_add, hdelq]
      rw [hjk]
      simp [addAdminJob, deleteAdminJob]
    · intro hmem
      simp only [setAdminJobUUID, addAdminJob, deleteAdminJob, List.map_append, List.mem_append] at hmem
      rcases hmem with hmem | hmem
      · rcases List.mem_map.mp hmem with ⟨x, hx, hfx⟩
        have hxid : x.id ≠ j.id := by
          simpa using (List.mem_filter.mp hx).2
        have : j.id = x.id := by
          rw [← hfx]
          split <;> rfl
        exact hxid this.symm
      · simp only [List.map_cons, List.map_nil, List.mem_singleton] at hmem
        have hjlt : j.id < st.nextId := hwf j hjmem
        have : j.id = st.nextId := by
          rw [hmem]
          split <;> rfl
        omega

theorem updateSchedule_replacement_witness :
    (sampleReq.schedule.stype = ScheduleNone →
      AJAPI.updateSchedule sampleReq none (.ok ("uuid-1")) sampleStore =
          (.ok, deleteAdminJob sampleStore sampleJob.id) ∧
        periodicCount (AJAPI.updateSchedule sampleReq none (.ok ("uuid-1")) sampleStore).2
          sampleReq.name = 0) ∧
    (isCronSched sampleReq.schedule.stype = true →
      getAdminJobs (AJAPI.updateSchedule sampleReq none (.ok ("uuid-1")) sampleStore).2
          sampleReq.name JobKindPeriodic =
          [⟨sampleStore.nextId, sampleReq.name, JobKindPeriodic, sampleReq.cronString, "uuid-1"⟩] ∧
        sampleJob ∉ (AJAPI.updateSchedule sampleReq none (.ok ("uuid-1")) sampleStore).2.jobs) :=
  updateSchedule_replacement sampleReq none (.ok ("uuid-1")) ("uuid-1") sampleJob sampleStore
    (by decide) (by decide) (by decide)

theorem stopSucceeded_false (e : RunnerErr) (he : ∀ m2, e ≠ RunnerErr.http 404 m2) :
    stopSucceeded (some e) = false := by
  cases e with
  | plain m => rfl
  | http c m =>
    have hc : c ≠ 404 := by
      intro hcc
      exact he m (by rw [hcc])
    unfold stopSucceeded
    split
    · rename_i heq
      cases heq
    · rename_i m2 heq
      rw [Option.some_inj] at heq
      cases heq
      exact absurd rfl hc
    · rfl

/-- C7: a 404 http error from the runner stop call is treated exactly like
a successful stop (the two handler runs are equal), while any stop error
other than a 404 http error fails UpdateSchedule with an internal error
and leaves the store unchanged. -/
theorem updateSchedule_stop_idempotent (ajr : AdminJobReq) (m : String)
    (stopErr : RunnerErr) (resp : Except RunnerErr String) (j : AdminJob) (st : Store)
    (hq : getAdminJobs st ajr.name JobKindPeriodic = [j])
    (hm : ajr.schedule.stype ≠ ScheduleManual)
    (he : ∀ m2, stopErr ≠ RunnerErr.http 404 m2) :
    AJAPI.updateSchedule ajr (some (.http 404 m)) resp st =
        AJAPI.updateSchedule ajr none resp st ∧
      AJAPI.updateSchedule ajr (some stopErr) resp st =
        (.internalError (runnerErrMsg stopErr), st) := by
  constructor
  · rfl
  · unfold AJAPI.updateSchedule
    rw [if_neg (by simp [hm])]
    rw [hq]
    simp [stopSucceeded_false stopErr he]

theorem updateSchedule_stop_idempotent_witness :
    AJAPI.updateSchedule sampleReq (some (.http 404 ("not found"))) (.ok ("uuid-1")) sampleStore =
        AJAPI.updateSchedule sampleReq none (.ok ("uuid-1")) sampleStore ∧
      AJAPI.updateSchedule sampleReq (some (.plain ("connection reset"))) (.ok ("uuid-1")) sampleStore =
        (.internalError (runnerErrMsg (.plain ("connection reset"))), sampleStore) :=
  updateSchedule_stop_idempotent sampleReq ("not found") (.plain ("connection reset"))
    (.ok ("uuid-1")) sampleJob sampleStore (by decide) (by decide)
    (fun m2 h => RunnerErr.noConfusion h)

/-- C9 counterexample: with an existing record, a runner log-retrieval
error that carries the HTTP status 502 is surfaced as 502, not as the 500
the claim requires for every non-NotFound runner error. -/
theorem getLog_non404_code_cex :
    AJAPI.getLog (.ok (some sampleJob)) (.error (.http 502 ("bad gateway"))) = 502 ∧
      (502 : Nat) ≠ 500 := by
  constructor
  · rfl
  · decide

/-- C9 (amended): when the admin-job record exists, a runner log error
carrying an HTTP status code is surfaced with that same code — in
particular a NotFound error as 404 — while a runner error without an
HTTP status code is surfaced as 500. -/
theorem getLog_error_status (jb : AdminJob) (c : Nat) (m : String) :
    AJAPI.getLog (.ok (some jb)) (.error (.http c m)) = c ∧
      AJAPI.getLog (.ok (some jb)) (.error (.http 404 m)) = 404 ∧
      AJAPI.getLog (.ok (some jb)) (.error (.plain m)) = 500 :=
  ⟨rfl, rfl, rfl⟩

/- ===== C2: aggregation of poller errors ===== -/

theorem mergeErrs_some (errs : List (Option String)) (m : String) :
    mergeErrs errs (some m) =
      some ((errs.filterMap id).foldl (fun a b => a ++ (": ") ++ b) m) := by
  induction errs generalizing m with
  | nil => rfl
  | cons e rest ih =>
    cases e with
    | none => simpa [mergeErrs, wrapStep] using ih m
    | some x => simpa [mergeErrs, wrapStep] using ih (m ++ (": ") ++ x)

theorem mergeErrs_none (errs : List (Option String)) :
    mergeErrs errs none = joinMsgs (errs.filterMap id) := by
  induction errs with
  | nil => rfl
  | cons e rest ih =>
    cases e with
    | none => simpa [mergeErrs, wrapStep] using ih
    | some x =>
      show mergeErrs rest (some x) = joinMsgs (x :: rest.filterMap id)
      rw [mergeErrs_some]
      rfl

/-- C2: after a successful submission, Run merges the per-poller error
slots in slot index order: the aggregate is exactly the join of every
non-nil poller message in index order (none of them discarded), and the
run returns nil exactly when every poller slot is nil. -/
theorem run_merges_poller_errors (slots : List (Option String)) :
    Job.Run (.ok ()) slots = joinMsgs (slots.filterMap id) ∧
      (Job.Run (.ok ()) slots = none ↔ ∀ e ∈ slots, e = none) := by
  have hmain : Job.Run (.ok ()) slots = joinMsgs (slots.filterMap id) :=
    mergeErrs_none slots
  refine ⟨hmain, ?_⟩
  rw [hmain]
  constructor
  · intro hj e he
    cases hfm : slots.filterMap id with
    | nil =>
      have hnone := List.filterMap_eq_nil_iff.mp hfm e he
      simpa using hnone
    | cons x xs =>
      rw [hfm] at hj
      simp [joinMsgs] at hj
  · intro hall
    have hnil : slots.filterMap id = [] :=
      List.filterMap_eq_nil_iff.mpr (fun a ha => hall a ha)
    rw [hnil]
    rfl

/- ===== C3 and C6: poller timing ===== -/

theorem pollerRun_cons_notReady (r : Nat) (rest : List ScanResp) (w t : Nat)
    (hw : w ≤ checkTimeoutSecs) :
    pollerRun (.notReady r :: rest) w t = pollerRun rest r (t + w) := by
  show (if checkTimeoutSecs < w then PollOutcome.timedOut (t + checkTimeoutSecs)
    else pollerRun rest r (t + w)) = pollerRun rest r (t + w)
  rw [if_neg (by omega)]

theorem checkTimes_cons_notReady (r : Nat) (rest : List ScanResp) (w t : Nat)
    (hw : w ≤ checkTimeoutSecs) :
    checkTimes (.notReady r :: rest) w t = (t + w) :: checkTimes rest r (t + w) := by
  show (if checkTimeoutSecs < w then ([] : List Nat)
    else (t + w) :: checkTimes rest r (t + w)) = (t + w) :: checkTimes rest r (t + w)
  rw [if_neg (by omega)]

/-- C3 counterexample: a poller whose scanner twice answers not ready with
a 1000-second retry hint performs its successful check-in only at second
2002, more than the 30-minute budget after its start, yet its outcome is
success — no timeout error is ever recorded, refuting a budget measured
from the poller's start. -/
theorem poller_no_start_budget_cex :
    pollerRun [.notReady 1000, .notReady 1000, .report ("report") true true]
        firstCheckIntervalSecs 0 = .success 2002 ∧
      checkTimeoutSecs < 2002 := by
  constructor
  · rfl
  · decide

theorem pollerRun_no_timeout (rs : List ScanResp) : ∀ w t, w ≤ checkTimeoutSecs →
    rs.all hintOk = true → ∀ u, pollerRun rs w t ≠ .timedOut u := by
  induction rs with
  | nil =>
    intro w t hw _ u
    unfold pollerRun
    rw [if_neg (by omega)]
    simp
  | cons r rest ih =>
    intro w t hw hok u
    simp only [List.all_cons, Bool.and_eq_true] at hok
    cases r with
    | notReady a =>
      have ha : a ≤ checkTimeoutSecs := by
        simpa [hintOk] using hok.1
      rw [pollerRun_cons_notReady a rest w t hw]
      exact ih a (t + w) ha hok.2 u
    | err m =>
      unfold pollerRun
      rw [if_neg (by omega)]
      simp
    | report raw rok cok =>
      show (if checkTimeoutSecs < w then PollOutcome.timedOut (t + checkTimeoutSecs)
        else if rok = true then
          (if cok = true then PollOutcome.success (t + w)
            else PollOutcome.failed ("check in scan report for mime type") (t + w))
        else PollOutcome.failed ("scan job: resolve report data") (t + w)) ≠
          PollOutcome.timedOut u
      rw [if_neg (by omega)]
      split <;> (try split) <;> simp

/-- C3 (amended): the 30-minute timeout channel is recreated at every
iteration of the poller loop, so the budget is per wait, not from the
poller's start: a poller whose current interval and retry-after hints all
stay within the budget never fails with the timeout error no matter how
much total time elapses, while any single wait exceeding the budget makes
the poller fail with the timeout error 30 minutes into that wait; each
poller is a function of its own response trace only, so the budgets of
sibling pollers are independent. -/
theorem poller_timeout_per_wait (rs : List ScanResp) (w t : Nat)
    (hw : w ≤ checkTimeoutSecs) (hok : rs.all hintOk = true) :
    (∀ u, pollerRun rs w t ≠ .timedOut u) ∧
      (∀ (rs2 : List ScanResp) (w2 t2 : Nat), checkTimeoutSecs < w2 →
        pollerRun rs2 w2 t2 = .timedOut (t2 + checkTimeoutSecs)) := by
  constructor
  · exact pollerRun_no_timeout rs w t hw hok
  · intro rs2 w2 t2 h2
    unfold pollerRun
    rw [if_pos h2]

theorem poller_timeout_per_wait_witness :
    (∀ u, pollerRun [.notReady 5, .report ("report") true true] firstCheckIntervalSecs 0 ≠
        .timedOut u) ∧
      (∀ (rs2 : List ScanResp) (w2 t2 : Nat), checkTimeoutSecs < w2 →
        pollerRun rs2 w2 t2 = .timedOut (t2 + checkTimeoutSecs)) :=
  poller_timeout_per_wait [.notReady 5, .report ("report") true true]
    firstCheckIntervalSecs 0 (by decide) (by decide)

/-- C6: a not-ready response carrying a retry-after hint of r seconds
records no failure — the poller simply continues, its outcome being that
of the rest of its trace — and reschedules the next poll attempt exactly
r seconds after the hint was received (hence no sooner than r seconds
after it), a behaviour that repeats for every further not-ready response
within the poller's timeout. -/
theorem poller_honors_retry_hint (r : Nat) (rest : List ScanResp) (w t : Nat)
    (hw : w ≤ checkTimeoutSecs) (hr : r ≤ checkTimeoutSecs) (hne : rest ≠ []) :
    pollerRun (.notReady r :: rest) w t = pollerRun rest r (t + w) ∧
      checkTimes (.notReady r :: rest) w t = (t + w) :: checkTimes rest r (t + w) ∧
      (checkTimes rest r (t + w)).head? = some (t + w + r) := by
  refine ⟨pollerRun_cons_notReady r rest w t hw, checkTimes_cons_notReady r rest w t hw, ?_⟩
  cases rest with
  | nil => exact absurd rfl hne
  | cons x xs =>
    unfold checkTimes
    rw [if_neg (by omega)]
    cases x <;> simp

theorem poller_honors_retry_hint_witness :
    pollerRun [.notReady 5, .report ("report") true true] firstCheckIntervalSecs 0 =
        pollerRun [.report ("report") true true] 5 (0 + firstCheckIntervalSecs) ∧
      checkTimes [.notReady 5, .report ("report") true true] firstCheckIntervalSecs 0 =
        (0 + firstCheckIntervalSecs) ::
          checkTimes [.report ("report") true true] 5 (0 + firstCheckIntervalSecs) ∧
      (checkTimes [.report ("report") true true] 5 (0 + firstCheckIntervalSecs)).head? =
        some (0 + firstCheckIntervalSecs + 5) :=
  poller_honors_retry_hint 5 [.report ("report") true true] firstCheckIntervalSecs 0
    (by decide) (by decide) (by simp)

/- ===== C5: validation completeness ===== -/

theorem validate_isErr_iff (parseReg : String → Except String Registration)
    (parseReq : String → Except String ScanRequest) (ps : Parameters) :
    isErr (Job.Validate parseReg parseReq (some ps)) = true ↔
      (isErr (extractRegistration parseReg ps) = true ∨
        isErr (ExtractScanReq parseReq ps) = true ∨
        isErr (extractMimeTypes ps) = true) := by
  unfold Job.Validate
  cases hr : extractRegistration parseReg ps with
  | error e => simp [isErr, hr]
  | ok a =>
    cases hs : ExtractScanReq parseReq ps with
    | error e => simp [isErr, hr, hs]
    | ok b =>
      cases hm : extractMimeTypes ps with
      | error e => simp [isErr, hr, hs, hm]
      | ok c => simp [isErr, hr, hs, hm]

theorem collectStrings_err (l : List PValue) (h : ∃ v ∈ l, ∀ s, v ≠ .str s) :
    isErr (collectStrings l) = true := by
  induction l with
  | nil => simp at h
  | cons x rest ih =>
    rcases h with ⟨v, hv, hns⟩
    rcases List.mem_cons.mp hv with hx | hx
    · subst hx
      cases v with
      | str s => exact absurd rfl (hns s)
      | arr l2 => rfl
      | int n => rfl
      | nul => rfl
    · cases x with
      | str s =>
        have hrest := ih ⟨v, hx, hns⟩
        show isErr ((collectStrings rest).map (fun l2 => s :: l2)) = true
        cases hc : collectStrings rest with
        | error e => simp [isErr, Except.map, hc]
        | ok l2 =>
          rw [hc] at hrest
          simp [isErr] at hrest
      | arr l2 => rfl
      | int n => rfl
      | nul => rfl

/-- C5: Validate — a pure function of the parameter map in this embedding,
performing no network call by construction — returns an error whenever
the parameter map is nil, any of the three required keys is missing, a
required key holds a value of the wrong dynamic type, the mime-type list
contains a non-string element, or the registration or the scan request
fails its own deserialization-and-semantic-validation step. -/
theorem validate_rejects_bad_params
    (parseReg : String → Except String Registration)
    (parseReq : String → Except String ScanRequest)
    (params : Option Parameters)
    (hbad : params = none ∨ ∃ ps, params = some ps ∧
      (lookupParam ps JobParamRegistration = none ∨
        lookupParam ps JobParameterRequest = none ∨
        lookupParam ps JobParameterMimes = none ∨
        (∃ v, lookupParam ps JobParamRegistration = some v ∧ ∀ s, v ≠ .str s) ∨
        (∃ v, lookupParam ps JobParameterRequest = some v ∧ ∀ s, v ≠ .str s) ∨
        (∃ v, lookupParam ps JobParameterMimes = some v ∧ ∀ l, v ≠ .arr l) ∨
        (∃ l, lookupParam ps JobParameterMimes = some (.arr l) ∧ ∃ v ∈ l, ∀ s, v ≠ .str s) ∨
        (∃ s, lookupParam ps JobParamRegistration = some (.str s) ∧ isErr (parseReg s) = true) ∨
        (∃ s, lookupParam ps JobParameterRequest = some (.str s) ∧ isErr (parseReq s) = true))) :
    isErr (Job.Validate parseReg parseReq params) = true := by
  rcases hbad with hnil | ⟨ps, hps, hcase⟩
  · subst hnil
    rfl
  · subst hps
    rw [validate_isErr_iff]
    rcases hcase with h | h | h | ⟨v, h, hns⟩ | ⟨v, h, hns⟩ | ⟨v, h, hna⟩ | ⟨l, h, hbadel⟩ | ⟨s, h, hf⟩ | ⟨s, h, hf⟩
    · left
      unfold extractRegistration
      rw [h]
      rfl
    · right; left
      unfold ExtractScanReq
      rw [h]
      rfl
    · right; right
      unfold extractMimeTypes
      rw [h]
      rfl
    · left
      unfold extractRegistration
      rw [h]
      cases v with
      | str s => exact absurd rfl (hns s)
      | arr l2 => rfl
      | int n => rfl
      | nul => rfl
    · right; left
      unfold ExtractScanReq
      rw [h]
      cases v with
      | str s => exact absurd rfl (hns s)
      | arr l2 => rfl
      | int n => rfl
      | nul => rfl
    · right; right
      unfold extractMimeTypes
      rw [h]
      cases v with
      | arr l2 => exact absurd rfl (hna l2)
      | str s => rfl
      | int n => rfl
      | nul => rfl
    · right; right
      unfold extractMimeTypes
      rw [h]
      exact collectStrings_err l hbadel
    · left
      unfold extractRegistration
      rw [h]
      exact hf
    · right; left
      unfold ExtractScanReq
      rw [h]
      exact hf

theorem validate_rejects_bad_params_witness :
    isErr (Job.Validate (fun _ => .ok ⟨"uuid-r", "http://scanner"⟩)
      (fun _ => .ok ⟨⟨"library/hello", "sha256:abc", "latest"⟩, ⟨"http://registry", "secret"⟩⟩)
      (some [("mimeTypes", PValue.arr [PValue.str ("application/json"), PValue.int 3])])) = true :=
  validate_rejects_bad_params _ _ _
    (Or.inr ⟨[("mimeTypes", PValue.arr [PValue.str ("application/json"), PValue.int 3])], rfl,
      Or.inr (Or.inr (Or.inr (Or.inr (Or.inr (Or.inr (Or.inl
        ⟨[PValue.str ("application/json"), PValue.int 3], rfl,
          ⟨PValue.int 3, by simp, fun s h => PValue.noConfusion h⟩⟩))))))⟩)

/- ===== C8: credential redaction ===== -/

/-- C8: the logged scan-request string replaces the registry authorization
credential by the fixed placeholder while preserving the artifact fields
and the registry URL: any two scan requests agreeing on artifact and
registry URL — in particular two requests differing only in the
credential — produce the identical logged string, and that string is the
serialization of the redacted request carrying the original artifact and
URL with the placeholder as authorization, so the credential itself is
never logged. -/
theorem removeAuthInfo_redacts (sr1 sr2 : ScanRequest)
    (ha : sr1.artifact = sr2.artifact) (hu : sr1.registry.url = sr2.registry.url) :
    removeAuthInfo sr1 = removeAuthInfo sr2 ∧
      removeAuthInfo sr1 = ScanRequest.toJSON ⟨sr1.artifact, ⟨sr1.registry.url, "[HIDDEN]"⟩⟩ := by
  constructor
  · unfold removeAuthInfo
    rw [ha, hu]
  · rfl

theorem removeAuthInfo_redacts_witness :
    removeAuthInfo ⟨⟨"library/hello", "sha256:abc", "latest"⟩, ⟨"http://registry", "secret-1"⟩⟩ =
        removeAuthInfo ⟨⟨"library/hello", "sha256:abc", "latest"⟩, ⟨"http://registry", "secret-2"⟩⟩ ∧
      removeAuthInfo ⟨⟨"library/hello", "sha256:abc", "latest"⟩, ⟨"http://registry", "secret-1"⟩⟩ =
        ScanRequest.toJSON ⟨⟨"library/hello", "sha256:abc", "latest"⟩, ⟨"http://registry", "[HIDDEN]"⟩⟩ :=
  removeAuthInfo_redacts _ _ rfl rfl

/- ===== C10: CheckInReport JSON round trip ===== -/

theorem dropLit_self (l cs : List Char) : dropLit l (l ++ cs) = some cs := by
  induction l with
  | nil => rfl
  | cons c ls ih => simp [dropLit, ih]

theorem dropLit_refl (l : List Char) : dropLit l l = some [] := by
  have h := dropLit_self l []
  rwa [List.append_nil] at h

theorem readStr_round (s rest : List Char) :
    readStr (escList s ++ '\"' :: rest) = some (s, rest) := by
  induction s with
  | nil =>
    show readStr ('\"' :: rest) = some ([], rest)
    rw [readStr.eq_def]
    simp
  | cons c cs ih =>
    show readStr ((escChar c ++ escList cs) ++ '\"' :: rest) = some (c :: cs, rest)
    rw [List.append_assoc]
    by_cases hc : c = '\\' ∨ c = '\"'
    · have h2 : escChar c = ['\\', c] := by simp [escChar, hc]
      rw [h2]
      show readStr ('\\' :: c :: (escList cs ++ '\"' :: rest)) = some (c :: cs, rest)
      rw [readStr.eq_def]
      simp [ih]
    · push_neg at hc
      have h2 : escChar c = [c] := by simp [escChar, hc.1, hc.2]
      rw [h2]
      show readStr (c :: (escList cs ++ '\"' :: rest)) = some (c :: cs, rest)
      rw [readStr.eq_def]
      simp only []
      rw [if_neg hc.2, if_neg hc.1, ih]
      rfl

theorem fromJSONL_toJSONL (r : CheckInReport) : fromJSONL (toJSONL r) = some r := by
  obtain ⟨⟨d⟩, ⟨u⟩, ⟨m⟩, ⟨w⟩⟩ := r
  simp only [toJSONL, fromJSONL, dropLit_self, readStr_round, dropLit_refl]

/-- C10: FromJSON inverts ToJSON: decoding the JSON string produced for
any CheckInReport succeeds (the encoded string is never empty, so the
empty-input guard never fires) and reconstructs a report equal to the
original in all four string fields. -/
theorem checkin_report_roundtrip (r : CheckInReport) :
    CheckInReport.FromJSON (CheckInReport.ToJSON r) = some r := by
  have hne : (CheckInReport.ToJSON r).data ≠ [] := by
    show toJSONL r ≠ []
    unfold toJSONL
    intro hcon
    rcases List.append_eq_nil.mp hcon with ⟨h1, _⟩
    exact absurd h1 (by decide)
  unfold CheckInReport.FromJSON
  rw [if_neg hne]
  exact fromJSONL_toJSONL r
